import Mathlib

set_option maxRecDepth 100000

/-!
Shallow embedding of the hand-written Promise/A+ style deferred-value
implementation (the `_Promise` class).  Promises live in a heap indexed by
`Nat`; the microtask queue is an explicit FIFO list of reaction tasks;
handlers passed to `then` and the behaviour of foreign thenables are given
syntactically so that the machine is executable.  Every definition mirrors
the corresponding source function.
-/

inductive PState where
  | pending
  | fulfilled
  | rejected
deriving DecidableEq, Repr

mutual

/-- JavaScript values as far as the promise engine inspects them.
`thenable s` is an object whose callable member named then runs the
script `s` synchronously when invoked; `getterThrows e` is an object
whose member-read for then raises `e`; `plainObj` is an object without a
callable then member; `settledRec` is an allSettled outcome record. -/
inductive JSVal where
  | undef
  | num (n : Int)
  | str (s : String)
  | promise (id : Nat)
  | arr (vs : List JSVal)
  | settledRec (ok : Bool) (v : JSVal)
  | plainObj
  | typeError (msg : String)
  | thenable (s : Script)
  | getterThrows (e : JSVal)

/-- The sequence of synchronous actions performed by a thenable's then
member: invoke the first continuation, invoke the second, or raise. -/
inductive Script where
  | nil
  | callRes (v : JSVal) (rest : Script)
  | callRej (v : JSVal) (rest : Script)
  | throwErr (e : JSVal) (rest : Script)

end

/-- typeof value is object or function (and not null). -/
def isObjectLike : JSVal → Bool
  | .undef => false
  | .num _ => false
  | .str _ => false
  | _ => true

/-- Behaviour of the argument-less callback handed to finally:
it either returns a value or raises. -/
inductive CB where
  | ret (v : JSVal)
  | thr (e : JSVal)

/-- The functions the engine ever invokes as onFulfilled / onRejected,
given syntactically.  `identity` and `rethrow` are the defaults `then`
substitutes for non-callable arguments; `finF`/`finR` are the two wrappers
finally builds; `allRes`/`rejectOuter` are the closures of static all;
`asRes`/`asRej` those of static allSettled; `latchRes`/`latchRej` are the
HAS_CALLED-guarded continuations the resolution procedure hands to a
foreign promise's then. -/
inductive Handler where
  | identity
  | rethrow
  | constH (v : JSVal)
  | throwH (e : JSVal)
  | finF (cb : CB)
  | finR (cb : CB)
  | allRes (aggId : Nat) (idx : Nat)
  | rejectOuter (outId : Nat)
  | asRes (aggId : Nat) (idx : Nat)
  | asRej (aggId : Nat) (idx : Nat)
  | latchRes (lid : Nat) (pid : Nat)
  | latchRej (lid : Nat) (pid : Nat)

/-- One `_Promise` instance: #state, #result, #reason and the two
callback queues.  A queued callback is the pair of the handler to run and
the id of the nextPromise it settles. -/
structure PromiseRec where
  state : PState
  result : JSVal
  reason : JSVal
  fulfillCbs : List (Handler × Nat)
  rejectCbs : List (Handler × Nat)

/-- A queued microtask: run `h` on the result (or reason, when `useReason`)
of promise `srcId`, feeding the outcome into nextPromise `nextId` through
the resolution procedure, with the try/catch of `then`. -/
structure MicroTask where
  h : Handler
  srcId : Nat
  useReason : Bool
  nextId : Nat

/-- The closed-over state of one static all / allSettled call:
restNum, the results array, and the outer promise being settled. -/
structure AggRec where
  restNum : Nat
  results : List (Option JSVal)
  outId : Nat

/-- The whole machine: promise heap, microtask FIFO, the HAS_CALLED
latches allocated by promise adoption, and the aggregate records. -/
structure World where
  promises : List PromiseRec
  tasks : List MicroTask
  latches : List Bool
  aggs : List AggRec

def emptyWorld : World := ⟨[], [], [], []⟩

def pendingRec : PromiseRec := ⟨.pending, .undef, .undef, [], []⟩

def getP (w : World) (pid : Nat) : Option PromiseRec := w.promises.get? pid

def setP (w : World) (pid : Nat) (r : PromiseRec) : World :=
  { w with promises := w.promises.set pid r }

/-- Allocate a fresh pending promise (`new _Promise` with an executor that
has not yet settled it); its id is the heap length before allocation. -/
def addPending (w : World) : World :=
  { w with promises := w.promises ++ [pendingRec] }

def stateOf (w : World) (pid : Nat) : Option PState := (getP w pid).map (·.state)

def resultOf (w : World) (pid : Nat) : Option JSVal := (getP w pid).map (·.result)

def reasonOf (w : World) (pid : Nat) : Option JSVal := (getP w pid).map (·.reason)

/-- `#resolve(result)`: guarded by the pending check; stores the result,
moves to fulfilled, then drains the fulfilled-callback queue front to back
(each queued callback only enqueues its microtask).  The rejected-callback
queue is not touched, exactly as in the source. -/
def resolveP (w : World) (pid : Nat) (v : JSVal) : World :=
  match getP w pid with
  | none => w
  | some r =>
    match r.state with
    | .pending =>
      let w1 := setP w pid { r with state := .fulfilled, result := v, fulfillCbs := [] }
      { w1 with tasks := w1.tasks ++ r.fulfillCbs.map (fun c => ⟨c.1, pid, false, c.2⟩) }
    | _ => w

/-- `#reject(reason)`: symmetric to `resolveP`, draining only the
rejected-callback queue. -/
def rejectP (w : World) (pid : Nat) (v : JSVal) : World :=
  match getP w pid with
  | none => w
  | some r =>
    match r.state with
    | .pending =>
      let w1 := setP w pid { r with state := .rejected, reason := v, rejectCbs := [] }
      { w1 with tasks := w1.tasks ++ r.rejectCbs.map (fun c => ⟨c.1, pid, true, c.2⟩) }
    | _ => w

/-- `then(onFulfilled, onRejected)`: allocates nextPromise, then switches
on the receiver's state: already fulfilled / rejected enqueues the one
reaction as a microtask; pending pushes a callback onto each queue.
Returns the updated world and the id of nextPromise. -/
def thenFn (w : World) (selfId : Nat) (onF onR : Handler) : World × Nat :=
  let nid := w.promises.length
  let w1 := addPending w
  match getP w selfId with
  | none => (w1, nid)
  | some r =>
    match r.state with
    | .fulfilled => ({ w1 with tasks := w1.tasks ++ [⟨onF, selfId, false, nid⟩] }, nid)
    | .rejected => ({ w1 with tasks := w1.tasks ++ [⟨onR, selfId, true, nid⟩] }, nid)
    | .pending =>
      (setP w1 selfId { r with
        fulfillCbs := r.fulfillCbs ++ [(onF, nid)],
        rejectCbs := r.rejectCbs ++ [(onR, nid)] }, nid)

/-- `catch(onRejected) = then(null, onRejected)`; the non-callable
onFulfilled defaults to the identity pass-through. -/
def catchFn (w : World) (selfId : Nat) (onR : Handler) : World × Nat :=
  thenFn w selfId .identity onR

/-- `finally(callback) = then(r => { callback(); return r },
e => { callback(); throw e })`. -/
def finallyFn (w : World) (selfId : Nat) (cb : CB) : World × Nat :=
  thenFn w selfId (.finF cb) (.finR cb)

def getLatch (w : World) (lid : Nat) : Bool := (w.latches.get? lid).getD true

def setLatch (w : World) (lid : Nat) (b : Bool) : World :=
  { w with latches := w.latches.set lid b }

mutual

/-- `#resolveNextPromise(promise, value, resolve, reject)` where resolve /
reject are always the settlement functions of `promise` itself (as at every
call site of the source).  Returns the new world and, exceptionally, the
value thrown out of the procedure: the cycle check raises a TypeError
rather than rejecting.  A foreign promise value is an object with a
callable then, so its then method is invoked with the two latch-guarded
continuations; a syntactic thenable runs its actions at once under the
local HAS_CALLED latch. -/
def resolveNextPromise (w : World) (pid : Nat) (v : JSVal) :
    World × Except JSVal Unit :=
  match v with
  | .promise q =>
    if q = pid then (w, .error (.typeError "No cycle chaining"))
    else
      let lid := w.latches.length
      let w1 := { w with latches := w.latches ++ [false] }
      ((thenFn w1 q (.latchRes lid pid) (.latchRej lid pid)).1, .ok ())
  | .thenable s => (runScript w pid s false, .ok ())
  | .getterThrows e => (rejectP w pid e, .ok ())
  | .undef => (resolveP w pid v, .ok ())
  | .num n => (resolveP w pid (.num n), .ok ())
  | .str s => (resolveP w pid (.str s), .ok ())
  | .arr vs => (resolveP w pid (.arr vs), .ok ())
  | .settledRec b x => (resolveP w pid (.settledRec b x), .ok ())
  | .plainObj => (resolveP w pid v, .ok ())
  | .typeError m => (resolveP w pid (.typeError m), .ok ())
termination_by structural v

/-- The synchronous run of a thenable's then member inside the
resolution procedure's try block for promise `pid`.  `hasCalled` is the
HAS_CALLED latch local to this adoption attempt.  A throw out of the
recursive call (the cycle TypeError) or out of the script lands in
the catch clause: with the latch fired it is swallowed, otherwise it
rejects `pid`; either way the remaining actions are abandoned. -/
def runScript (w : World) (pid : Nat) (s : Script) (hasCalled : Bool) :
    World :=
  match s with
  | .nil => w
  | .callRes r rest =>
    if hasCalled then runScript w pid rest true
    else
      match resolveNextPromise w pid r with
      | (w1, .ok _) => runScript w1 pid rest true
      | (w1, .error _) => w1
  | .callRej r rest =>
    if hasCalled then runScript w pid rest true
    else runScript (rejectP w pid r) pid rest true
  | .throwErr e _ =>
    if hasCalled then w
    else rejectP w pid e
termination_by structural s

end

def outcomeArr (rs : List (Option JSVal)) : JSVal :=
  .arr (rs.map (fun o => o.getD .undef))

def getAgg (w : World) (aggId : Nat) : Option AggRec := w.aggs.get? aggId

def setAgg (w : World) (aggId : Nat) (a : AggRec) : World :=
  { w with aggs := w.aggs.set aggId a }

/-- Invoke a handler on its argument.  The result is the world after the
handler's side effects together with the value it returns, or the value it
throws.  Each arm is the body of the corresponding source closure. -/
def runHandler (w : World) (h : Handler) (arg : JSVal) :
    World × Except JSVal JSVal :=
  match h with
  | .identity => (w, .ok arg)
  | .rethrow => (w, .error arg)
  | .constH v => (w, .ok v)
  | .throwH e => (w, .error e)
  | .finF cb =>
    match cb with
    | .ret _ => (w, .ok arg)
    | .thr e => (w, .error e)
  | .finR cb =>
    match cb with
    | .ret _ => (w, .error arg)
    | .thr e => (w, .error e)
  | .allRes aggId idx =>
    match getAgg w aggId with
    | none => (w, .ok .undef)
    | some a =>
      let results := a.results.set idx (some arg)
      let rest := a.restNum - 1
      let w1 := setAgg w aggId { a with results := results, restNum := rest }
      let w2 := if rest = 0 then resolveP w1 a.outId (outcomeArr results) else w1
      (w2, .ok .undef)
  | .rejectOuter outId => (rejectP w outId arg, .ok .undef)
  | .asRes aggId idx =>
    match getAgg w aggId with
    | none => (w, .ok .undef)
    | some a =>
      let results := a.results.set idx (some (.settledRec true arg))
      let rest := a.restNum - 1
      let w1 := setAgg w aggId { a with results := results, restNum := rest }
      let w2 := if rest = 0 then resolveP w1 a.outId (outcomeArr results) else w1
      (w2, .ok .undef)
  | .asRej aggId idx =>
    match getAgg w aggId with
    | none => (w, .ok .undef)
    | some a =>
      let results := a.results.set idx (some (.settledRec false arg))
      let rest := a.restNum - 1
      let w1 := setAgg w aggId { a with results := results, restNum := rest }
      let w2 := if rest = 0 then resolveP w1 a.outId (outcomeArr results) else w1
      (w2, .ok .undef)
  | .latchRes lid pid =>
    if getLatch w lid then (w, .ok .undef)
    else
      let w1 := setLatch w lid true
      match resolveNextPromise w1 pid arg with
      | (w2, .ok _) => (w2, .ok .undef)
      | (w2, .error e) => (w2, .error e)
  | .latchRej lid pid =>
    if getLatch w lid then (w, .ok .undef)
    else (rejectP (setLatch w lid true) pid arg, .ok .undef)

/-- Pop and run the front microtask: the deferred body in `then` reads the
source promise's stored result or reason, runs the handler inside try,
feeds the returned value through the resolution procedure, and converts
anything thrown into a rejection of nextPromise. -/
def runTask (w : World) : World :=
  match w.tasks with
  | [] => w
  | t :: rest =>
    let w1 := { w with tasks := rest }
    match getP w1 t.srcId with
    | none => w1
    | some r =>
      let arg := if t.useReason then r.reason else r.result
      match runHandler w1 t.h arg with
      | (w2, .error e) => rejectP w2 t.nextId e
      | (w2, .ok v) =>
        match resolveNextPromise w2 t.nextId v with
        | (w3, .ok _) => w3
        | (w3, .error e) => rejectP w3 t.nextId e

/-- Run up to `n` microtasks from the front of the queue. -/
def runTasks (w : World) : Nat → World
  | 0 => w
  | n + 1 => runTasks (runTask w) n

/-- `static resolve(value)`: a `_Promise` instance is returned unchanged;
otherwise a new promise is constructed whose executor probes value for a
callable then and, when it has one, invokes it with the raw settlement
functions of the new promise (no latch, no recursive resolution). -/
def resolveScriptRun (w : World) (pid : Nat) : Script → World
  | .nil => w
  | .callRes r rest => resolveScriptRun (resolveP w pid r) pid rest
  | .callRej r rest => resolveScriptRun (rejectP w pid r) pid rest
  | .throwErr e _ => rejectP w pid e

def resolveFn (w : World) (v : JSVal) : World × Nat :=
  match v with
  | .promise id => (w, id)
  | _ =>
    let pid := w.promises.length
    let w1 := addPending w
    if isObjectLike v then
      match v with
      | .getterThrows e => (rejectP w1 pid e, pid)
      | .thenable s => (resolveScriptRun w1 pid s, pid)
      | _ => (resolveP w1 pid v, pid)
    else (resolveP w1 pid v, pid)

/-- `static reject(value)`: a new promise immediately rejected. -/
def rejectFn (w : World) (v : JSVal) : World × Nat :=
  let pid := w.promises.length
  (rejectP (addPending w) pid v, pid)

/-- The for-loop of `static all`: index = restNum++, then
`_Promise.resolve(item).then(fulfill-closure, reject)`. -/
def allLoop (w : World) (aggId : Nat) (outId : Nat) : List JSVal → World
  | [] => w
  | item :: rest =>
    match getAgg w aggId with
    | none => w
    | some a =>
      let idx := a.restNum
      let w1 := setAgg w aggId { a with restNum := idx + 1, results := a.results ++ [none] }
      let (w2, ipid) := resolveFn w1 item
      let w3 := (thenFn w2 ipid (.allRes aggId idx) (.rejectOuter outId)).1
      allLoop w3 aggId outId rest

def allFn (w : World) (items : List JSVal) : World × Nat :=
  let outId := w.promises.length
  let w1 := addPending w
  let aggId := w1.aggs.length
  let w2 := { w1 with aggs := w1.aggs ++ [⟨0, [], outId⟩] }
  let w3 := allLoop w2 aggId outId items
  match getAgg w3 aggId with
  | none => (w3, outId)
  | some a =>
    if a.restNum = 0 then (resolveP w3 outId (.arr []), outId)
    else (w3, outId)

/-- The for-loop of `static allSettled`. -/
def allSettledLoop (w : World) (aggId : Nat) : List JSVal → World
  | [] => w
  | item :: rest =>
    match getAgg w aggId with
    | none => w
    | some a =>
      let idx := a.restNum
      let w1 := setAgg w aggId { a with restNum := idx + 1, results := a.results ++ [none] }
      let (w2, ipid) := resolveFn w1 item
      let w3 := (thenFn w2 ipid (.asRes aggId idx) (.asRej aggId idx)).1
      allSettledLoop w3 aggId rest

def allSettledFn (w : World) (items : List JSVal) : World × Nat :=
  let outId := w.promises.length
  let w1 := addPending w
  let aggId := w1.aggs.length
  let w2 := { w1 with aggs := w1.aggs ++ [⟨0, [], outId⟩] }
  let w3 := allSettledLoop w2 aggId items
  match getAgg w3 aggId with
  | none => (w3, outId)
  | some a =>
    if a.restNum = 0 then (resolveP w3 outId (.arr []), outId)
    else (w3, outId)

/-! ### Basic lemmas about the heap operations -/

theorem getP_lt_length {w : World} {pid : Nat} {r : PromiseRec}
    (h : getP w pid = some r) : pid < w.promises.length := by
  unfold getP at h
  rw [List.get?_eq_getElem?] at h
  exact (List.getElem?_eq_some.mp h).1

theorem getP_addPending_lt {w : World} {pid : Nat} {r : PromiseRec}
    (h : getP w pid = some r) : getP (addPending w) pid = some r := by
  have hl := getP_lt_length h
  unfold getP addPending at *
  rw [List.get?_append hl]
  exact h

theorem getP_addPending_len (w : World) :
    getP (addPending w) w.promises.length = some pendingRec := by
  unfold getP addPending
  simp [List.get?_concat_length]

theorem getP_setP_self {w : World} {pid : Nat} {r0 : PromiseRec}
    (h : getP w pid = some r0) (r : PromiseRec) :
    getP (setP w pid r) pid = some r := by
  unfold getP setP
  simpa using List.get?_set_eq_of_lt r (getP_lt_length h)

theorem getP_setP_ne {w : World} {pid q : Nat} (h : pid ≠ q) (r : PromiseRec) :
    getP (setP w pid r) q = getP w q := by
  unfold getP setP
  simpa using List.get?_set_ne _ _ h

/-- With the promise already settled, `#resolve` is a no-op. -/
theorem resolveP_of_settled {w : World} {pid : Nat}
    (h : stateOf w pid ≠ some .pending) (v : JSVal) : resolveP w pid v = w := by
  unfold resolveP
  unfold stateOf at h
  cases hg : getP w pid with
  | none => rfl
  | some r =>
    rw [hg] at h
    cases hs : r.state with
    | pending => simp [hs] at h
    | fulfilled => simp [hs]
    | rejected => simp [hs]

/-- With the promise already settled, `#reject` is a no-op. -/
theorem rejectP_of_settled {w : World} {pid : Nat}
    (h : stateOf w pid ≠ some .pending) (v : JSVal) : rejectP w pid v = w := by
  unfold rejectP
  unfold stateOf at h
  cases hg : getP w pid with
  | none => rfl
  | some r =>
    rw [hg] at h
    cases hs : r.state with
    | pending => simp [hs] at h
    | fulfilled => simp [hs]
    | rejected => simp [hs]

/-- Explicit form of a first, effective `#resolve` on a pending promise. -/
theorem resolveP_of_pending {w : World} {pid : Nat} {r : PromiseRec}
    (hg : getP w pid = some r) (hs : r.state = .pending) (v : JSVal) :
    resolveP w pid v =
      { setP w pid { r with state := .fulfilled, result := v, fulfillCbs := [] } with
        tasks := w.tasks ++ r.fulfillCbs.map (fun c => ⟨c.1, pid, false, c.2⟩) } := by
  cases r with
  | mk st res rea fc rc =>
    have hs' : st = PState.pending := hs
    subst hs'
    unfold resolveP
    rw [hg]
    rfl

/-- Explicit form of a first, effective `#reject` on a pending promise. -/
theorem rejectP_of_pending {w : World} {pid : Nat} {r : PromiseRec}
    (hg : getP w pid = some r) (hs : r.state = .pending) (v : JSVal) :
    rejectP w pid v =
      { setP w pid { r with state := .rejected, reason := v, rejectCbs := [] } with
        tasks := w.tasks ++ r.rejectCbs.map (fun c => ⟨c.1, pid, true, c.2⟩) } := by
  cases r with
  | mk st res rea fc rc =>
    have hs' : st = PState.pending := hs
    subst hs'
    unfold rejectP
    rw [hg]
    rfl

theorem stateOf_resolveP_of_pending {w : World} {pid : Nat} {r : PromiseRec}
    (hg : getP w pid = some r) (hs : r.state = .pending) (v : JSVal) :
    stateOf (resolveP w pid v) pid = some .fulfilled := by
  rw [resolveP_of_pending hg hs]
  unfold stateOf
  have : getP { setP w pid { r with state := .fulfilled, result := v, fulfillCbs := [] } with
        tasks := w.tasks ++ r.fulfillCbs.map (fun c => ⟨c.1, pid, false, c.2⟩) } pid
      = some { r with state := .fulfilled, result := v, fulfillCbs := [] } :=
    getP_setP_self hg _
  rw [this]
  rfl

theorem stateOf_rejectP_of_pending {w : World} {pid : Nat} {r : PromiseRec}
    (hg : getP w pid = some r) (hs : r.state = .pending) (v : JSVal) :
    stateOf (rejectP w pid v) pid = some .rejected := by
  rw [rejectP_of_pending hg hs]
  unfold stateOf
  have : getP { setP w pid { r with state := .rejected, reason := v, rejectCbs := [] } with
        tasks := w.tasks ++ r.rejectCbs.map (fun c => ⟨c.1, pid, true, c.2⟩) } pid
      = some { r with state := .rejected, reason := v, rejectCbs := [] } :=
    getP_setP_self hg _
  rw [this]
  rfl

/-- A sequence of further settlement attempts (true = settleFulfilled,
false = settleRejected). -/
def settleOps (w : World) (pid : Nat) : List (Bool × JSVal) → World
  | [] => w
  | (true, v) :: rest => settleOps (resolveP w pid v) pid rest
  | (false, v) :: rest => settleOps (rejectP w pid v) pid rest

theorem settleOps_of_settled {w : World} {pid : Nat}
    (h : stateOf w pid ≠ some .pending) (ops : List (Bool × JSVal)) :
    settleOps w pid ops = w := by
  induction ops with
  | nil => rfl
  | cons op rest ih =>
    obtain ⟨b, v⟩ := op
    cases b with
    | true => simpa [settleOps, resolveP_of_settled h] using ih
    | false => simpa [settleOps, rejectP_of_settled h] using ih

theorem resultOf_resolveP_of_pending {w : World} {pid : Nat} {r : PromiseRec}
    (hg : getP w pid = some r) (hs : r.state = .pending) (v : JSVal) :
    resultOf (resolveP w pid v) pid = some v := by
  rw [resolveP_of_pending hg hs]
  unfold resultOf
  have : getP { setP w pid { r with state := .fulfilled, result := v, fulfillCbs := [] } with
        tasks := w.tasks ++ r.fulfillCbs.map (fun c => ⟨c.1, pid, false, c.2⟩) } pid
      = some { r with state := .fulfilled, result := v, fulfillCbs := [] } :=
    getP_setP_self hg _
  rw [this]
  rfl

theorem reasonOf_rejectP_of_pending {w : World} {pid : Nat} {r : PromiseRec}
    (hg : getP w pid = some r) (hs : r.state = .pending) (v : JSVal) :
    reasonOf (rejectP w pid v) pid = some v := by
  rw [rejectP_of_pending hg hs]
  unfold reasonOf
  have : getP { setP w pid { r with state := .rejected, reason := v, rejectCbs := [] } with
        tasks := w.tasks ++ r.rejectCbs.map (fun c => ⟨c.1, pid, true, c.2⟩) } pid
      = some { r with state := .rejected, reason := v, rejectCbs := [] } :=
    getP_setP_self hg _
  rw [this]
  rfl

theorem exists_pending_of_stateOf {w : World} {pid : Nat}
    (h : stateOf w pid = some .pending) :
    ∃ r, getP w pid = some r ∧ r.state = .pending := by
  unfold stateOf at h
  cases hg : getP w pid with
  | none => rw [hg] at h; simp at h
  | some r =>
    rw [hg] at h
    exact ⟨r, rfl, by simpa using h⟩

/-- C1: for every container, the state moves away from pending at most
once (pending to fulfilled via settleFulfilled, or pending to rejected via
settleRejected, and no other transition); once a settlement has taken
effect, every later call to either settlement function — singly or in any
sequence — leaves the entire world unchanged, so state, result and reason
never change again. -/
theorem c1_settle_at_most_once (w : World) (pid : Nat) (v1 v2 v3 : JSVal)
    (h : stateOf w pid = some .pending) :
    (stateOf (resolveP w pid v1) pid = some .fulfilled ∧
     resultOf (resolveP w pid v1) pid = some v1 ∧
     resolveP (resolveP w pid v1) pid v2 = resolveP w pid v1 ∧
     rejectP (resolveP w pid v1) pid v3 = resolveP w pid v1 ∧
     (∀ ops : List (Bool × JSVal), settleOps (resolveP w pid v1) pid ops = resolveP w pid v1)) ∧
    (stateOf (rejectP w pid v1) pid = some .rejected ∧
     reasonOf (rejectP w pid v1) pid = some v1 ∧
     resolveP (rejectP w pid v1) pid v2 = rejectP w pid v1 ∧
     rejectP (rejectP w pid v1) pid v3 = rejectP w pid v1 ∧
     (∀ ops : List (Bool × JSVal), settleOps (rejectP w pid v1) pid ops = rejectP w pid v1)) := by
  obtain ⟨r, hg, hs⟩ := exists_pending_of_stateOf h
  have hf := stateOf_resolveP_of_pending hg hs v1
  have hr := stateOf_rejectP_of_pending hg hs v1
  have hfns : stateOf (resolveP w pid v1) pid ≠ some .pending := by
    rw [hf]; simp
  have hrns : stateOf (rejectP w pid v1) pid ≠ some .pending := by
    rw [hr]; simp
  exact ⟨⟨hf, resultOf_resolveP_of_pending hg hs v1,
      resolveP_of_settled hfns v2, rejectP_of_settled hfns v3,
      fun ops => settleOps_of_settled hfns ops⟩,
    ⟨hr, reasonOf_rejectP_of_pending hg hs v1,
      resolveP_of_settled hrns v2, rejectP_of_settled hrns v3,
      fun ops => settleOps_of_settled hrns ops⟩⟩

theorem c1_settle_at_most_once_witness :
    stateOf (addPending emptyWorld) 0 = some .pending ∧
    stateOf (resolveP (addPending emptyWorld) 0 (.num 1)) 0 = some .fulfilled ∧
    resolveP (resolveP (addPending emptyWorld) 0 (.num 1)) 0 (.num 2) =
      resolveP (addPending emptyWorld) 0 (.num 1) ∧
    rejectP (resolveP (addPending emptyWorld) 0 (.num 1)) 0 (.num 3) =
      resolveP (addPending emptyWorld) 0 (.num 1) :=
  ⟨rfl,
    (c1_settle_at_most_once (addPending emptyWorld) 0 (.num 1) (.num 2) (.num 3) rfl).1.1,
    (c1_settle_at_most_once (addPending emptyWorld) 0 (.num 1) (.num 2) (.num 3) rfl).1.2.2.1,
    (c1_settle_at_most_once (addPending emptyWorld) 0 (.num 1) (.num 2) (.num 3) rfl).1.2.2.2.1⟩

/-- Once HAS_CALLED is set, the rest of a thenable's script has no effect
on the world at all. -/
theorem runScript_latched (w : World) (pid : Nat) :
    (s : Script) → runScript w pid s true = w
  | .nil => rfl
  | .callRes _ rest => runScript_latched w pid rest
  | .callRej _ rest => runScript_latched w pid rest
  | .throwErr _ _ => rfl

/-- C4: during adoption of a thenable, only the first invocation of either
continuation callback takes effect: after the latch fires, any further
script actions are ignored (first conjunct, and hence the arbitrary tails
in the others); the first onRejected call rejects the adopting container
with its reason and the first onResolved call re-enters the resolution
procedure, each regardless of what follows; a synchronous throw from the
then member before the latch fires rejects the adopting container with the
raised error (also when reading then itself throws), while a throw after
the latch fired is swallowed and the outcome already produced stands. -/
theorem c4_single_call_latch :
    (∀ (w : World) (pid : Nat) (s : Script), runScript w pid s true = w) ∧
    (∀ (w : World) (pid : Nat) (r : JSVal) (rest : Script),
      resolveNextPromise w pid (.thenable (.callRej r rest)) = (rejectP w pid r, .ok ())) ∧
    (∀ (w : World) (pid : Nat) (r : JSVal) (rest : Script),
      resolveNextPromise w pid (.thenable (.callRes r rest)) =
        ((resolveNextPromise w pid r).1, .ok ())) ∧
    (∀ (w : World) (pid : Nat) (e : JSVal) (rest : Script),
      resolveNextPromise w pid (.thenable (.throwErr e rest)) = (rejectP w pid e, .ok ())) ∧
    (∀ (w : World) (pid : Nat) (e : JSVal),
      resolveNextPromise w pid (.getterThrows e) = (rejectP w pid e, .ok ())) ∧
    (∀ (w : World) (pid : Nat) (r e : JSVal) (rest : Script),
      resolveNextPromise w pid (.thenable (.callRej r (.throwErr e rest))) =
        (rejectP w pid r, .ok ())) := by
  have latched := runScript_latched
  refine ⟨latched, ?_, ?_, ?_, ?_, ?_⟩
  · intro w pid r rest
    show (runScript (rejectP w pid r) pid rest true, Except.ok ()) = _
    rw [latched]
  · intro w pid r rest
    show (runScript w pid (.callRes r rest) false, Except.ok ()) = _
    cases hE : resolveNextPromise w pid r with
    | mk w1 exc =>
      cases exc with
      | ok u =>
        show (runScript w pid (.callRes r rest) false, Except.ok ()) = (w1, Except.ok ())
        simp only [runScript, hE]
        simp [latched]
      | error e =>
        show (runScript w pid (.callRes r rest) false, Except.ok ()) = (w1, Except.ok ())
        simp only [runScript, hE]
        simp
  · intro w pid e rest
    rfl
  · intro w pid e
    rfl
  · intro w pid r e rest
    show (runScript (rejectP w pid r) pid (.throwErr e rest) true, Except.ok ()) = _
    rw [latched]

/-- A fulfilled promise 0 whose then registers a reaction returning the
very nextPromise (id 1) produced by that then call. -/
def c2chainW : World × Nat :=
  thenFn (resolveFn emptyWorld .undef).1 0 (.constH (.promise 1)) .rethrow

def c2chainRun : World := runTasks c2chainW.1 3

/-- A pending promise 0 with a chained nextPromise 1; promise 0 is then
resolved with a thenable whose then synchronously calls onResolved with
promise 1 itself. -/
def c2swallowW : World × Nat :=
  thenFn (addPending emptyWorld) 0 .identity .rethrow

def c2swallowRun : World :=
  runTasks (resolveP c2swallowW.1 0 (.thenable (.callRes (.promise 1) .nil))) 5

/-- C2 counterexample: when the resolution procedure re-enters itself via
a thenable's onResolved callback carrying the adopting container P itself
(here promise 1), the cycle TypeError thrown by the re-entrant call is
swallowed by the already-fired HAS_CALLED latch, so P is left pending
forever with the microtask queue drained — it is not rejected with a cycle
error as the claim states. -/
theorem c2_cycle_counterexample :
    stateOf c2swallowRun 1 = some .pending ∧
    stateOf c2swallowRun 1 ≠ some .rejected ∧
    c2swallowRun.tasks = [] := by
  refine ⟨rfl, ?_, rfl⟩
  rw [show stateOf c2swallowRun 1 = some .pending from rfl]
  simp

/-- C2 amended: entering the resolution procedure directly with a
candidate value equal to the container P itself raises the cycle
TypeError instead of recursing (first conjunct), and when that entry comes
from a then reaction the microtask's catch turns it into a rejection of P
with the cycle error (third conjunct, the reaction returning its own
nextPromise); but when the procedure is re-entered with P via a thenable's
onResolved callback, the thrown cycle error is swallowed by the fired
single-call latch and the world is left unchanged, so P stays pending
(second and fourth conjuncts).  In no case does the procedure recurse
infinitely. -/
theorem c2_cycle_detection_amended :
    (∀ (w : World) (pid : Nat),
      resolveNextPromise w pid (.promise pid) =
        (w, .error (.typeError "No cycle chaining"))) ∧
    (∀ (w : World) (pid : Nat) (rest : Script),
      resolveNextPromise w pid (.thenable (.callRes (.promise pid) rest)) =
        (w, .ok ())) ∧
    (stateOf c2chainRun 1 = some .rejected ∧
     reasonOf c2chainRun 1 = some (.typeError "No cycle chaining")) ∧
    (stateOf c2swallowRun 1 = some .pending ∧ c2swallowRun.tasks = []) := by
  have h1 : ∀ (w : World) (pid : Nat),
      resolveNextPromise w pid (.promise pid) =
        (w, .error (.typeError "No cycle chaining")) := by
    intro w pid
    simp [resolveNextPromise]
  refine ⟨h1, ?_, ⟨rfl, rfl⟩, ⟨rfl, rfl⟩⟩
  intro w pid rest
  show (runScript w pid (.callRes (.promise pid) rest) false, Except.ok ()) = (w, .ok ())
  simp only [runScript, h1]
  simp

/-- static resolve applied to a two-level nested thenable that eventually
calls back with the string X. -/
def c3nested : World × Nat :=
  resolveFn emptyWorld
    (.thenable (.callRes (.thenable (.callRes (.str "X") .nil)) .nil))

/-- C3 counterexample: static resolve of a thenable that calls back with a
second, inner thenable does not adopt the inner thenable: the executor
hands the raw settlement function (not the resolution procedure) to the
outer then, so the new container fulfills with the inner thenable object
itself, never with the string X — with the machine already quiescent. -/
theorem c3_resolve_counterexample :
    stateOf c3nested.1 c3nested.2 = some .fulfilled ∧
    resultOf c3nested.1 c3nested.2 = some (.thenable (.callRes (.str "X") .nil)) ∧
    resultOf c3nested.1 c3nested.2 ≠ some (.str "X") ∧
    c3nested.1.tasks = [] := by
  refine ⟨rfl, rfl, ?_, rfl⟩
  rw [show resultOf c3nested.1 c3nested.2
      = some (.thenable (.callRes (.str "X") .nil)) from rfl]
  simp

/-- C3 amended: resolve(value) returns value itself when it is already an
instance of the container type (first conjunct); for any other value it
constructs a new container, and a single-level thenable calling back with
the string X does yield fulfillment with X (second conjunct); but the
executor feeds a thenable's callback value to the raw settlement function
rather than the Resolution Procedure, so with nested thenables the
container fulfills with the inner thenable object instead of X (third
conjunct). -/
theorem c3_resolve_amended :
    (∀ (w : World) (id : Nat), resolveFn w (.promise id) = (w, id)) ∧
    (∀ (w : World) (s : String),
      stateOf (resolveFn w (.thenable (.callRes (.str s) .nil))).1
        (resolveFn w (.thenable (.callRes (.str s) .nil))).2 = some .fulfilled ∧
      resultOf (resolveFn w (.thenable (.callRes (.str s) .nil))).1
        (resolveFn w (.thenable (.callRes (.str s) .nil))).2 = some (.str s)) ∧
    (∀ (w : World) (inner : Script),
      stateOf (resolveFn w (.thenable (.callRes (.thenable inner) .nil))).1
        (resolveFn w (.thenable (.callRes (.thenable inner) .nil))).2 = some .fulfilled ∧
      resultOf (resolveFn w (.thenable (.callRes (.thenable inner) .nil))).1
        (resolveFn w (.thenable (.callRes (.thenable inner) .nil))).2 =
          some (.thenable inner)) := by
  refine ⟨fun w id => rfl, ?_, ?_⟩
  · intro w s
    have hred : resolveFn w (.thenable (.callRes (.str s) .nil))
        = (resolveP (addPending w) w.promises.length (.str s), w.promises.length) := rfl
    rw [hred]
    exact ⟨stateOf_resolveP_of_pending (getP_addPending_len w) rfl _,
      resultOf_resolveP_of_pending (getP_addPending_len w) rfl _⟩
  · intro w inner
    have hred : resolveFn w (.thenable (.callRes (.thenable inner) .nil))
        = (resolveP (addPending w) w.promises.length (.thenable inner),
           w.promises.length) := rfl
    rw [hred]
    exact ⟨stateOf_resolveP_of_pending (getP_addPending_len w) rfl _,
      resultOf_resolveP_of_pending (getP_addPending_len w) rfl _⟩

theorem thenFn_fulfilled {w : World} {pid : Nat} {r : PromiseRec}
    (hg : getP w pid = some r) (hs : r.state = .fulfilled) (hF hR : Handler) :
    thenFn w pid hF hR =
      ({ addPending w with tasks := w.tasks ++ [⟨hF, pid, false, w.promises.length⟩] },
       w.promises.length) := by
  cases r with
  | mk st res rea fc rc =>
    have hs' : st = PState.fulfilled := hs
    subst hs'
    unfold thenFn
    rw [hg]
    rfl

theorem thenFn_rejected {w : World} {pid : Nat} {r : PromiseRec}
    (hg : getP w pid = some r) (hs : r.state = .rejected) (hF hR : Handler) :
    thenFn w pid hF hR =
      ({ addPending w with tasks := w.tasks ++ [⟨hR, pid, true, w.promises.length⟩] },
       w.promises.length) := by
  cases r with
  | mk st res rea fc rc =>
    have hs' : st = PState.rejected := hs
    subst hs'
    unfold thenFn
    rw [hg]
    rfl

theorem thenFn_pending {w : World} {pid : Nat} {r : PromiseRec}
    (hg : getP w pid = some r) (hs : r.state = .pending) (hF hR : Handler) :
    thenFn w pid hF hR =
      (setP (addPending w) pid { r with
        fulfillCbs := r.fulfillCbs ++ [(hF, w.promises.length)],
        rejectCbs := r.rejectCbs ++ [(hR, w.promises.length)] },
       w.promises.length) := by
  cases r with
  | mk st res rea fc rc =>
    have hs' : st = PState.pending := hs
    subst hs'
    unfold thenFn
    rw [hg]

theorem stateOf_fields (ps : List PromiseRec) (ts : List MicroTask)
    (ls : List Bool) (ags : List AggRec) (pid : Nat) :
    stateOf ⟨ps, ts, ls, ags⟩ pid = (ps.get? pid).map (·.state) := rfl

/-- Registering three reactions in order on the same pending container. -/
def registerThree (w : World) (pid : Nat) (h1 r1 h2 r2 h3 r3 : Handler) : World :=
  (thenFn ((thenFn ((thenFn w pid h1 r1).1) pid h2 r2).1) pid h3 r3).1

theorem registerStep {w : World} {pid : Nat} {r : PromiseRec}
    (hg : getP w pid = some r) (hs : r.state = .pending) (hF hR : Handler) :
    getP (thenFn w pid hF hR).1 pid = some { r with
        fulfillCbs := r.fulfillCbs ++ [(hF, w.promises.length)],
        rejectCbs := r.rejectCbs ++ [(hR, w.promises.length)] } ∧
    (thenFn w pid hF hR).1.tasks = w.tasks ∧
    (thenFn w pid hF hR).1.promises.length = w.promises.length + 1 := by
  rw [thenFn_pending hg hs]
  refine ⟨getP_setP_self (getP_addPending_lt hg) _, rfl, ?_⟩
  simp [setP, addPending]

/-- C5: reactions registered through then never run inline with the
registering call.  Registering on an already-settled container only
allocates the pending nextPromise and appends one reaction task to the
microtask queue — every existing promise record (hence every handler
effect) is untouched, and the new container is still pending when the
registering call returns (first two conjuncts).  On a pending container
three registrations enqueue nothing at all; the reactions reach the
microtask queue only when the container settles, in exactly the order in
which they were registered (third conjunct). -/
theorem c5_reactions_deferred_and_ordered :
    (∀ (w : World) (pid : Nat) (hF hR : Handler), stateOf w pid = some .fulfilled →
      (thenFn w pid hF hR).1.promises = w.promises ++ [pendingRec] ∧
      (thenFn w pid hF hR).1.tasks = w.tasks ++ [⟨hF, pid, false, w.promises.length⟩] ∧
      stateOf (thenFn w pid hF hR).1 (thenFn w pid hF hR).2 = some .pending) ∧
    (∀ (w : World) (pid : Nat) (hF hR : Handler), stateOf w pid = some .rejected →
      (thenFn w pid hF hR).1.promises = w.promises ++ [pendingRec] ∧
      (thenFn w pid hF hR).1.tasks = w.tasks ++ [⟨hR, pid, true, w.promises.length⟩] ∧
      stateOf (thenFn w pid hF hR).1 (thenFn w pid hF hR).2 = some .pending) ∧
    (∀ (w : World) (pid : Nat) (h1 r1 h2 r2 h3 r3 : Handler) (v : JSVal),
      getP w pid = some pendingRec →
      (registerThree w pid h1 r1 h2 r2 h3 r3).tasks = w.tasks ∧
      (resolveP (registerThree w pid h1 r1 h2 r2 h3 r3) pid v).tasks =
        w.tasks ++ [⟨h1, pid, false, w.promises.length⟩,
          ⟨h2, pid, false, w.promises.length + 1⟩,
          ⟨h3, pid, false, w.promises.length + 2⟩]) := by
  refine ⟨?_, ?_, ?_⟩
  · intro w pid hF hR h
    obtain ⟨r, hg, hs⟩ : ∃ r, getP w pid = some r ∧ r.state = .fulfilled := by
      unfold stateOf at h
      cases hgg : getP w pid with
      | none => rw [hgg] at h; simp at h
      | some r => rw [hgg] at h; exact ⟨r, rfl, by simpa using h⟩
    rw [thenFn_fulfilled hg hs]
    refine ⟨rfl, rfl, ?_⟩
    show stateOf (addPending w) w.promises.length = some .pending
    rw [stateOf, getP_addPending_len w]
    rfl
  · intro w pid hF hR h
    obtain ⟨r, hg, hs⟩ : ∃ r, getP w pid = some r ∧ r.state = .rejected := by
      unfold stateOf at h
      cases hgg : getP w pid with
      | none => rw [hgg] at h; simp at h
      | some r => rw [hgg] at h; exact ⟨r, rfl, by simpa using h⟩
    rw [thenFn_rejected hg hs]
    refine ⟨rfl, rfl, ?_⟩
    show stateOf (addPending w) w.promises.length = some .pending
    rw [stateOf, getP_addPending_len w]
    rfl
  · intro w pid h1 r1 h2 r2 h3 r3 v hg
    have s1 := registerStep hg rfl h1 r1
    have s2 := registerStep s1.1 rfl h2 r2
    have s3 := registerStep s2.1 rfl h3 r3
    rw [s1.2.2] at s2
    rw [s2.2.2] at s3
    unfold registerThree
    constructor
    · rw [s3.2.1, s2.2.1, s1.2.1]
    · rw [resolveP_of_pending s3.1 rfl v]
      rw [s3.2.1, s2.2.1, s1.2.1]
      simp [pendingRec, s1.2.2]

theorem c5_reactions_deferred_and_ordered_witness :
    stateOf (resolveFn emptyWorld (.num 1)).1 0 = some .fulfilled ∧
    ((thenFn (resolveFn emptyWorld (.num 1)).1 0 .identity .rethrow).1.promises =
        (resolveFn emptyWorld (.num 1)).1.promises ++ [pendingRec] ∧
      (thenFn (resolveFn emptyWorld (.num 1)).1 0 .identity .rethrow).1.tasks =
        (resolveFn emptyWorld (.num 1)).1.tasks ++
          [⟨.identity, 0, false, (resolveFn emptyWorld (.num 1)).1.promises.length⟩] ∧
      stateOf (thenFn (resolveFn emptyWorld (.num 1)).1 0 .identity .rethrow).1
        (thenFn (resolveFn emptyWorld (.num 1)).1 0 .identity .rethrow).2 = some .pending) ∧
    getP (addPending emptyWorld) 0 = some pendingRec ∧
    (resolveP (registerThree (addPending emptyWorld) 0 .identity .rethrow
        (.constH .undef) .rethrow .identity .rethrow) 0 (.num 5)).tasks =
      (addPending emptyWorld).tasks ++
        [⟨.identity, 0, false, (addPending emptyWorld).promises.length⟩,
         ⟨.constH .undef, 0, false, (addPending emptyWorld).promises.length + 1⟩,
         ⟨.identity, 0, false, (addPending emptyWorld).promises.length + 2⟩] :=
  ⟨rfl,
    c5_reactions_deferred_and_ordered.1 (resolveFn emptyWorld (.num 1)).1 0 .identity .rethrow rfl,
    rfl,
    (c5_reactions_deferred_and_ordered.2.2 (addPending emptyWorld) 0 .identity .rethrow
      (.constH .undef) .rethrow .identity .rethrow (.num 5) rfl).2⟩

/-- A pending promise with one reaction registered, then fulfilled. -/
def c9reg : World := (thenFn (addPending emptyWorld) 0 .identity .rethrow).1

def c9set : World := resolveP c9reg 0 (.num 5)

/-- C9 counterexample: settlement drains only the corresponding queue.
After the container fulfills, the fulfilled-callback queue is empty but
the rejected-callback queue still holds the reaction pushed by then — it
is never drained — contradicting that both queues are empty once the
container has left the pending state. -/
theorem c9_queues_counterexample :
    stateOf c9set 0 = some .fulfilled ∧
    (getP c9set 0).map (·.fulfillCbs.length) = some 0 ∧
    (getP c9set 0).map (·.rejectCbs.length) = some 1 ∧
    (getP c9set 0).map (·.rejectCbs.length) ≠ some 0 := by
  refine ⟨rfl, rfl, rfl, ?_⟩
  rw [show (getP c9set 0).map (·.rejectCbs.length) = some 1 from rfl]
  simp

/-- C9 amended: both queues are appended to only while the container is
pending — registering on a settled container changes no existing promise
record (first conjunct) while registering on a pending one appends one
callback at the tail of each queue (second conjunct).  Upon settlement the
corresponding queue is drained into the microtask queue in FIFO order and
cleared, exactly once since any further settlement attempt is a no-op
(fifth conjunct); but the opposite queue is retained unchanged in the
record, never drained or invoked (visible in the records of the third and
fourth conjuncts). -/
theorem c9_queues_amended :
    (∀ (w : World) (pid : Nat) (hF hR : Handler), stateOf w pid ≠ some .pending →
      (thenFn w pid hF hR).1.promises = w.promises ++ [pendingRec]) ∧
    (∀ (w : World) (pid : Nat) (r : PromiseRec) (hF hR : Handler),
      getP w pid = some r → r.state = .pending →
      getP (thenFn w pid hF hR).1 pid = some { r with
        fulfillCbs := r.fulfillCbs ++ [(hF, w.promises.length)],
        rejectCbs := r.rejectCbs ++ [(hR, w.promises.length)] }) ∧
    (∀ (w : World) (pid : Nat) (r : PromiseRec) (v : JSVal),
      getP w pid = some r → r.state = .pending →
      getP (resolveP w pid v) pid =
        some { r with state := .fulfilled, result := v, fulfillCbs := [] } ∧
      (resolveP w pid v).tasks =
        w.tasks ++ r.fulfillCbs.map (fun c => ⟨c.1, pid, false, c.2⟩)) ∧
    (∀ (w : World) (pid : Nat) (r : PromiseRec) (v : JSVal),
      getP w pid = some r → r.state = .pending →
      getP (rejectP w pid v) pid =
        some { r with state := .rejected, reason := v, rejectCbs := [] } ∧
      (rejectP w pid v).tasks =
        w.tasks ++ r.rejectCbs.map (fun c => ⟨c.1, pid, true, c.2⟩)) ∧
    (∀ (w : World) (pid : Nat) (v : JSVal), stateOf w pid ≠ some .pending →
      resolveP w pid v = w ∧ rejectP w pid v = w) := by
  refine ⟨?_, ?_, ?_, ?_, ?_⟩
  · intro w pid hF hR h
    unfold stateOf at h
    cases hg : getP w pid with
    | none =>
      unfold thenFn
      rw [hg]
      rfl
    | some r =>
      rw [hg] at h
      cases hs : r.state with
      | pending => simp [hs] at h
      | fulfilled => rw [thenFn_fulfilled hg hs]; rfl
      | rejected => rw [thenFn_rejected hg hs]; rfl
  · intro w pid r hF hR hg hs
    exact (registerStep hg hs hF hR).1
  · intro w pid r v hg hs
    rw [resolveP_of_pending hg hs]
    exact ⟨getP_setP_self hg _, rfl⟩
  · intro w pid r v hg hs
    rw [rejectP_of_pending hg hs]
    exact ⟨getP_setP_self hg _, rfl⟩
  · intro w pid v h
    exact ⟨resolveP_of_settled h v, rejectP_of_settled h v⟩

theorem c9_queues_amended_witness :
    getP (addPending emptyWorld) 0 = some pendingRec ∧
    pendingRec.state = .pending ∧
    getP (resolveP (addPending emptyWorld) 0 (.num 5)) 0 =
      some { pendingRec with state := .fulfilled, result := .num 5, fulfillCbs := [] } :=
  ⟨rfl, rfl,
    (c9_queues_amended.2.2.1 (addPending emptyWorld) 0 pendingRec (.num 5) rfl rfl).1⟩

theorem runTask_cons {w : World} {t : MicroTask} {rest : List MicroTask}
    (ht : w.tasks = t :: rest) {r : PromiseRec} (hg : getP w t.srcId = some r) :
    runTask w =
      (match runHandler { w with tasks := rest } t.h
          (if t.useReason then r.reason else r.result) with
       | (w2, .error e) => rejectP w2 t.nextId e
       | (w2, .ok v) =>
         match resolveNextPromise w2 t.nextId v with
         | (w3, .ok _) => w3
         | (w3, .error e) => rejectP w3 t.nextId e) := by
  obtain ⟨ps, ts, ls, ags⟩ := w
  have ht' : ts = t :: rest := ht
  subst ht'
  have hg' : getP (⟨ps, rest, ls, ags⟩ : World) t.srcId = some r := hg
  simp only [runTask, hg']

theorem exists_fulfilled_of_stateOf {w : World} {pid : Nat}
    (h : stateOf w pid = some .fulfilled) :
    ∃ r, getP w pid = some r ∧ r.state = .fulfilled := by
  unfold stateOf at h
  cases hg : getP w pid with
  | none => rw [hg] at h; simp at h
  | some r => rw [hg] at h; exact ⟨r, rfl, by simpa using h⟩

theorem exists_rejected_of_stateOf {w : World} {pid : Nat}
    (h : stateOf w pid = some .rejected) :
    ∃ r, getP w pid = some r ∧ r.state = .rejected := by
  unfold stateOf at h
  cases hg : getP w pid with
  | none => rw [hg] at h; simp at h
  | some r => rw [hg] at h; exact ⟨r, rfl, by simpa using h⟩

/-- C6 amended: finally(callback) invokes the argument-less callback on
either settlement path and the returned container forwards the original
result on fulfillment and rejects with the original reason on rejection;
the callback's return value cbv — arbitrary here, including a rejected
thenable — is discarded entirely and never takes precedence over the
original outcome. -/
theorem c6_finally_transparent (w : World) (pid : Nat) (cbv : JSVal) (s e : String)
    (hq : w.tasks = []) :
    (stateOf w pid = some .fulfilled → resultOf w pid = some (.str s) →
      stateOf (runTask (finallyFn w pid (.ret cbv)).1) (finallyFn w pid (.ret cbv)).2 =
        some .fulfilled ∧
      resultOf (runTask (finallyFn w pid (.ret cbv)).1) (finallyFn w pid (.ret cbv)).2 =
        some (.str s)) ∧
    (stateOf w pid = some .rejected → reasonOf w pid = some (.str e) →
      stateOf (runTask (finallyFn w pid (.ret cbv)).1) (finallyFn w pid (.ret cbv)).2 =
        some .rejected ∧
      reasonOf (runTask (finallyFn w pid (.ret cbv)).1) (finallyFn w pid (.ret cbv)).2 =
        some (.str e)) := by
  constructor
  · intro hst hres
    obtain ⟨r, hg, hs⟩ := exists_fulfilled_of_stateOf hst
    have hr : r.result = .str s := by
      unfold resultOf at hres
      rw [hg] at hres
      simpa using hres
    have hfin : finallyFn w pid (.ret cbv) =
        ({ addPending w with
            tasks := [⟨.finF (.ret cbv), pid, false, w.promises.length⟩] },
         w.promises.length) := by
      unfold finallyFn
      rw [thenFn_fulfilled hg hs, hq]
      rfl
    rw [hfin]
    have hgW : getP { addPending w with
        tasks := [(⟨.finF (.ret cbv), pid, false, w.promises.length⟩ : MicroTask)] } pid =
        some r := getP_addPending_lt hg
    rw [runTask_cons rfl hgW]
    rw [hr]
    have hgl : getP ({ addPending w with tasks := ([] : List MicroTask) })
        w.promises.length = some pendingRec := getP_addPending_len w
    exact ⟨stateOf_resolveP_of_pending hgl rfl (.str s),
      resultOf_resolveP_of_pending hgl rfl (.str s)⟩
  · intro hst hres
    obtain ⟨r, hg, hs⟩ := exists_rejected_of_stateOf hst
    have hr : r.reason = .str e := by
      unfold reasonOf at hres
      rw [hg] at hres
      simpa using hres
    have hfin : finallyFn w pid (.ret cbv) =
        ({ addPending w with
            tasks := [⟨.finR (.ret cbv), pid, true, w.promises.length⟩] },
         w.promises.length) := by
      unfold finallyFn
      rw [thenFn_rejected hg hs, hq]
      rfl
    rw [hfin]
    have hgW : getP { addPending w with
        tasks := [(⟨.finR (.ret cbv), pid, true, w.promises.length⟩ : MicroTask)] } pid =
        some r := getP_addPending_lt hg
    rw [runTask_cons rfl hgW]
    rw [hr]
    have hgl : getP ({ addPending w with tasks := ([] : List MicroTask) })
        w.promises.length = some pendingRec := getP_addPending_len w
    exact ⟨stateOf_rejectP_of_pending hgl rfl (.str e),
      reasonOf_rejectP_of_pending hgl rfl (.str e)⟩

def c6rejW : World × Nat := rejectFn emptyWorld (.str "e")

def c6finW : World × Nat :=
  finallyFn c6rejW.1 c6rejW.2 (.ret (.thenable (.callRej (.str "boom") .nil)))

def c6run : World := runTasks c6finW.1 5

/-- C6 counterexample: on a container rejected with e, finally with a
callback returning a rejected thenable (rejecting with boom) still
rejects the returned container with the original reason e: the callback's
rejected-thenable return value is discarded and does not take precedence,
with the machine fully quiescent afterwards. -/
theorem c6_finally_counterexample :
    stateOf c6run c6finW.2 = some .rejected ∧
    reasonOf c6run c6finW.2 = some (.str "e") ∧
    reasonOf c6run c6finW.2 ≠ some (.str "boom") ∧
    c6run.tasks = [] := by
  refine ⟨rfl, rfl, ?_, rfl⟩
  rw [show reasonOf c6run c6finW.2 = some (.str "e") from rfl]
  simp

theorem c6_finally_transparent_witness :
    (rejectFn emptyWorld (.str "e")).1.tasks = [] ∧
    stateOf (rejectFn emptyWorld (.str "e")).1 0 = some .rejected ∧
    reasonOf (rejectFn emptyWorld (.str "e")).1 0 = some (.str "e") ∧
    (stateOf (runTask (finallyFn (rejectFn emptyWorld (.str "e")).1 0
          (.ret (.thenable (.callRej (.str "boom") .nil)))).1)
        (finallyFn (rejectFn emptyWorld (.str "e")).1 0
          (.ret (.thenable (.callRej (.str "boom") .nil)))).2 = some .rejected ∧
      reasonOf (runTask (finallyFn (rejectFn emptyWorld (.str "e")).1 0
          (.ret (.thenable (.callRej (.str "boom") .nil)))).1)
        (finallyFn (rejectFn emptyWorld (.str "e")).1 0
          (.ret (.thenable (.callRej (.str "boom") .nil)))).2 = some (.str "e")) :=
  ⟨rfl, rfl, rfl,
    (c6_finally_transparent (rejectFn emptyWorld (.str "e")).1 0
      (.thenable (.callRej (.str "boom") .nil)) "s" "e" rfl).2 rfl rfl⟩

/-- C10: if the callback passed to finally throws when invoked, on either
settlement path, the container returned by finally rejects with the
thrown error, replacing the original result or reason. -/
theorem c10_finally_callback_throw (w : World) (pid : Nat) (ex : JSVal)
    (hq : w.tasks = []) :
    (stateOf w pid = some .fulfilled →
      stateOf (runTask (finallyFn w pid (.thr ex)).1) (finallyFn w pid (.thr ex)).2 =
        some .rejected ∧
      reasonOf (runTask (finallyFn w pid (.thr ex)).1) (finallyFn w pid (.thr ex)).2 =
        some ex) ∧
    (stateOf w pid = some .rejected →
      stateOf (runTask (finallyFn w pid (.thr ex)).1) (finallyFn w pid (.thr ex)).2 =
        some .rejected ∧
      reasonOf (runTask (finallyFn w pid (.thr ex)).1) (finallyFn w pid (.thr ex)).2 =
        some ex) := by
  constructor
  · intro hst
    obtain ⟨r, hg, hs⟩ := exists_fulfilled_of_stateOf hst
    have hfin : finallyFn w pid (.thr ex) =
        ({ addPending w with
            tasks := [⟨.finF (.thr ex), pid, false, w.promises.length⟩] },
         w.promises.length) := by
      unfold finallyFn
      rw [thenFn_fulfilled hg hs, hq]
      rfl
    rw [hfin]
    have hgW : getP { addPending w with
        tasks := [(⟨.finF (.thr ex), pid, false, w.promises.length⟩ : MicroTask)] } pid =
        some r := getP_addPending_lt hg
    rw [runTask_cons rfl hgW]
    have hgl : getP ({ addPending w with tasks := ([] : List MicroTask) })
        w.promises.length = some pendingRec := getP_addPending_len w
    exact ⟨stateOf_rejectP_of_pending hgl rfl ex,
      reasonOf_rejectP_of_pending hgl rfl ex⟩
  · intro hst
    obtain ⟨r, hg, hs⟩ := exists_rejected_of_stateOf hst
    have hfin : finallyFn w pid (.thr ex) =
        ({ addPending w with
            tasks := [⟨.finR (.thr ex), pid, true, w.promises.length⟩] },
         w.promises.length) := by
      unfold finallyFn
      rw [thenFn_rejected hg hs, hq]
      rfl
    rw [hfin]
    have hgW : getP { addPending w with
        tasks := [(⟨.finR (.thr ex), pid, true, w.promises.length⟩ : MicroTask)] } pid =
        some r := getP_addPending_lt hg
    rw [runTask_cons rfl hgW]
    have hgl : getP ({ addPending w with tasks := ([] : List MicroTask) })
        w.promises.length = some pendingRec := getP_addPending_len w
    exact ⟨stateOf_rejectP_of_pending hgl rfl ex,
      reasonOf_rejectP_of_pending hgl rfl ex⟩

theorem c10_finally_callback_throw_witness :
    (resolveFn emptyWorld (.num 7)).1.tasks = [] ∧
    stateOf (resolveFn emptyWorld (.num 7)).1 0 = some .fulfilled ∧
    (stateOf (runTask (finallyFn (resolveFn emptyWorld (.num 7)).1 0
          (.thr (.str "err"))).1)
        (finallyFn (resolveFn emptyWorld (.num 7)).1 0 (.thr (.str "err"))).2 =
        some .rejected ∧
      reasonOf (runTask (finallyFn (resolveFn emptyWorld (.num 7)).1 0
          (.thr (.str "err"))).1)
        (finallyFn (resolveFn emptyWorld (.num 7)).1 0 (.thr (.str "err"))).2 =
        some (.str "err")) :=
  ⟨rfl, rfl,
    (c10_finally_callback_throw (resolveFn emptyWorld (.num 7)).1 0
      (.str "err") rfl).1 rfl⟩

theorem getAgg_concat_len (w : World) (a : AggRec) :
    getAgg { w with aggs := w.aggs ++ [a] } w.aggs.length = some a := by
  unfold getAgg
  simp [List.get?_concat_length]

theorem allFn_nil (w : World) :
    allFn w [] =
      (resolveP { addPending w with aggs := w.aggs ++ [⟨0, [], w.promises.length⟩] }
        w.promises.length (.arr []), w.promises.length) := by
  unfold allFn
  simp only [allLoop]
  rw [getAgg_concat_len (addPending w) ⟨0, [], w.promises.length⟩]
  rfl

theorem allSettledFn_nil (w : World) :
    allSettledFn w [] =
      (resolveP { addPending w with aggs := w.aggs ++ [⟨0, [], w.promises.length⟩] }
        w.promises.length (.arr []), w.promises.length) := by
  unfold allSettledFn
  simp only [allSettledLoop]
  rw [getAgg_concat_len (addPending w) ⟨0, [], w.promises.length⟩]
  rfl

/-- resolve(1), resolve(2), reject("e") created in order (ids 0, 1, 2). -/
def c7three : World :=
  (rejectFn (resolveFn (resolveFn emptyWorld (.num 1)).1 (.num 2)).1 (.str "e")).1

def c7all : World × Nat := allFn c7three [.promise 0, .promise 1, .promise 2]

def c7run : World := runTasks c7all.1 10

/-- all of three already-fulfilled plain values, checking result order. -/
def c7ok : World × Nat := allFn emptyWorld [.num 10, .num 20, .num 30]

def c7okRun : World := runTasks c7ok.1 10

/-- Two already-rejected items: the first rejection wins. -/
def c7fw : World × Nat :=
  allFn (rejectFn (rejectFn emptyWorld (.str "e1")).1 (.str "e2")).1
    [.promise 0, .promise 1]

def c7fwRun : World := runTasks c7fw.1 10

/-- Item 0 rejected, item 1 still pending at the all call; item 1
fulfills later, whose result is abandoned. -/
def c7ab : World × Nat :=
  allFn (addPending (rejectFn emptyWorld (.str "e")).1) [.promise 0, .promise 1]

def c7abRun : World := runTasks (resolveP (runTasks c7ab.1 5) 1 (.num 9)) 10

/-- C7: all(items) fulfills with an ordered sequence of results matching
the input positions once every item settles successfully (second
conjunct); it rejects with the reason of the first item to reject — later
rejections and later fulfillments are abandoned (fourth and fifth
conjuncts); the empty input fulfills immediately with the empty sequence
for every starting world (first conjunct); and in particular
all([resolve(1), resolve(2), reject("e")]) rejects with "e" (third
conjunct), each scenario run to a quiescent microtask queue. -/
theorem c7_all_combinator :
    (∀ w : World,
      stateOf (allFn w []).1 (allFn w []).2 = some .fulfilled ∧
      resultOf (allFn w []).1 (allFn w []).2 = some (.arr [])) ∧
    (stateOf c7okRun c7ok.2 = some .fulfilled ∧
      resultOf c7okRun c7ok.2 = some (.arr [.num 10, .num 20, .num 30]) ∧
      c7okRun.tasks = []) ∧
    (stateOf c7run c7all.2 = some .rejected ∧
      reasonOf c7run c7all.2 = some (.str "e") ∧
      c7run.tasks = []) ∧
    (stateOf c7fwRun c7fw.2 = some .rejected ∧
      reasonOf c7fwRun c7fw.2 = some (.str "e1")) ∧
    (stateOf c7abRun c7ab.2 = some .rejected ∧
      reasonOf c7abRun c7ab.2 = some (.str "e") ∧
      c7abRun.tasks = []) := by
  refine ⟨?_, ⟨rfl, rfl, rfl⟩, ⟨rfl, rfl, rfl⟩, ⟨rfl, rfl⟩, ⟨rfl, rfl, rfl⟩⟩
  intro w
  rw [allFn_nil w]
  have hgl : getP ({ addPending w with
      aggs := w.aggs ++ [⟨0, [], w.promises.length⟩] }) w.promises.length =
      some pendingRec := getP_addPending_len w
  exact ⟨stateOf_resolveP_of_pending hgl rfl _,
    resultOf_resolveP_of_pending hgl rfl _⟩

/-- resolve(1) and reject("e") created in order (ids 0, 1). -/
def c8base : World := (rejectFn (resolveFn emptyWorld (.num 1)).1 (.str "e")).1

def c8call : World × Nat := allSettledFn c8base [.promise 0, .promise 1]

def c8run : World := runTasks c8call.1 10

/-- allSettled over an item still pending at the call, rejected later. -/
def c8later : World × Nat := allSettledFn (addPending emptyWorld) [.promise 0]

def c8laterRun : World :=
  runTasks (rejectP (runTasks c8later.1 2) 0 (.str "boom")) 5

/-- C8: allSettled(items) always fulfills, never rejects: with a fulfilled
and a rejected item it fulfills with the ordered outcome records,
positionally matching the input and tagged fulfilled-with-value /
rejected-with-reason (second conjunct); it still fulfills when an item
rejects only after the call, the record tagged rejected (third conjunct);
the empty input fulfills immediately with the empty sequence for every
starting world (first conjunct), each scenario run to a quiescent
microtask queue. -/
theorem c8_allSettled_combinator :
    (∀ w : World,
      stateOf (allSettledFn w []).1 (allSettledFn w []).2 = some .fulfilled ∧
      resultOf (allSettledFn w []).1 (allSettledFn w []).2 = some (.arr [])) ∧
    (stateOf c8run c8call.2 = some .fulfilled ∧
      resultOf c8run c8call.2 =
        some (.arr [.settledRec true (.num 1), .settledRec false (.str "e")]) ∧
      c8run.tasks = []) ∧
    (stateOf c8laterRun c8later.2 = some .fulfilled ∧
      resultOf c8laterRun c8later.2 = some (.arr [.settledRec false (.str "boom")]) ∧
      c8laterRun.tasks = []) := by
  refine ⟨?_, ⟨rfl, rfl, rfl⟩, ⟨rfl, rfl, rfl⟩⟩
  intro w
  rw [allSettledFn_nil w]
  have hgl : getP ({ addPending w with
      aggs := w.aggs ++ [⟨0, [], w.promises.length⟩] }) w.promises.length =
      some pendingRec := getP_addPending_len w
  exact ⟨stateOf_resolveP_of_pending hgl rfl _,
    resultOf_resolveP_of_pending hgl rfl _⟩
